import Mathlib

/-!
Verification of the J.A.R.V.I.S live-audio pipeline.

The development shallowly embeds the audio helpers (`src/helpers.ts`) and the
live-conversation panel (`LiveConvoPanel`) in Lean.  Times and float samples
are modelled as rationals: every arithmetic step the code performs on them
(scaling by a power of two, truncation to an integer, division by 32768) is
exact in IEEE doubles, so the rational model computes the very same values.
Byte buffers are lists of naturals below 256, and effectful calls on platform
objects (`source.start`, `track.stop`, `context.close`, ...) are recorded as
an explicit action list returned next to the updated state.
-/

set_option linter.unusedVariables false

/-- One conversational turn: accumulated user and model transcript text. -/
structure Turn where
  user : String
  model : String
  deriving DecidableEq

/-- The fields of a `LiveServerMessage` that the `onmessage` handler reads.
`audioDuration` is the duration of the decoded inbound audio buffer
(`audioBuffer.duration = frameCount / sampleRate`), present when the message
carries `modelTurn.parts[0].inlineData.data`. -/
structure LiveMsg where
  inputTranscription : Option String
  outputTranscription : Option String
  turnComplete : Bool
  audioDuration : Option ℚ
  interrupted : Bool

/-- Calls on platform audio/session objects, recorded as data.  Buffer
sources and microphone tracks are identified by numeric ids. -/
inductive Act where
  | startSource (id : Nat) (time : ℚ)
  | stopSource (id : Nat)
  | closeSession
  | stopTrack (id : Nat)
  | disconnectProcessor
  | closeInputCtx
  | closeOutputCtx
  deriving DecidableEq

/-- The mutable state of `LiveConvoPanel`: the React state hooks
(`isLive`, `error`, `transcription`, `currentTurn`) and the refs
(`sessionPromiseRef`, `inputAudioContextRef`, `outputAudioContextRef`,
`mediaStreamRef`, `scriptProcessorRef`, `nextStartTimeRef`,
`audioSourcesRef`).  Handles held by refs are numeric ids; `none` models a
`null` ref.  `audioSources` lists the ids in `audioSourcesRef.current`, and
`nextSourceId` supplies a fresh id for each `createBufferSource()` call. -/
structure PanelState where
  isLive : Bool
  error : Option String
  transcription : List Turn
  currentTurn : Turn
  sessionPromise : Option Nat
  inputCtx : Option Nat
  outputCtx : Option Nat
  mediaStreamTracks : Option (List Nat)
  scriptProcessor : Option Nat
  nextStartTime : ℚ
  audioSources : List Nat
  nextSourceId : Nat
  deriving DecidableEq

/-- The `onmessage` callback of the live session, processing the four
branches in source order: input transcription, output transcription,
turn-complete, inbound audio, interruption.  `now` is
`outputCtx.currentTime` when the message is handled.

`closureTurn` is the value of the `currentTurn` binding captured by the
callback's closure.  The callback object is built once, inside the render in
which `startConversation` ran, so the `currentTurn` it reads on
`setTranscription(prev => [...prev, currentTurn])` is that render's value for
the whole session; only the functional updates `setCurrentTurn(prev => ...)`
see the live accumulator. -/
def onmessage (closureTurn : Turn) (now : ℚ) (st : PanelState) (msg : LiveMsg) :
    PanelState × List Act :=
  let st1 := match msg.inputTranscription with
    | some t => { st with currentTurn := { st.currentTurn with user := st.currentTurn.user ++ t } }
    | none => st
  let st2 := match msg.outputTranscription with
    | some t =>
        { st1 with currentTurn := { st1.currentTurn with model := st1.currentTurn.model ++ t } }
    | none => st1
  let st3 := if msg.turnComplete then
      { st2 with transcription := st2.transcription ++ [closureTurn], currentTurn := ⟨"", ""⟩ }
    else st2
  let sched : PanelState × List Act := match msg.audioDuration with
    | some d =>
        let start := max st3.nextStartTime now
        ({ st3 with nextStartTime := start + d,
                    audioSources := st3.audioSources ++ [st3.nextSourceId],
                    nextSourceId := st3.nextSourceId + 1 },
         [Act.startSource st3.nextSourceId start])
    | none => (st3, [])
  if msg.interrupted then
    ({ sched.1 with audioSources := [], nextStartTime := 0 },
     sched.2 ++ sched.1.audioSources.map Act.stopSource)
  else sched

/-- `stopConversation`: closes the session when the promise ref is set and
nulls only that ref, stops every microphone track, disconnects the script
processor, closes both audio contexts, stops and clears the active buffer
sources, and lowers `isLive`.  The media-stream, processor and context refs
are left holding their (now released) objects. -/
def stopConversation (st : PanelState) : PanelState × List Act :=
  let sess : PanelState × List Act := match st.sessionPromise with
    | some _ => ({ st with sessionPromise := none }, [Act.closeSession])
    | none => (st, [])
  let trackActs := match st.mediaStreamTracks with
    | some ts => ts.map Act.stopTrack
    | none => []
  let procActs := match st.scriptProcessor with
    | some _ => [Act.disconnectProcessor]
    | none => []
  let inActs := match st.inputCtx with
    | some _ => [Act.closeInputCtx]
    | none => []
  let outActs := match st.outputCtx with
    | some _ => [Act.closeOutputCtx]
    | none => []
  let srcActs := st.audioSources.map Act.stopSource
  ({ sess.1 with audioSources := [], isLive := false },
   sess.2 ++ trackActs ++ procActs ++ inActs ++ outActs ++ srcActs)

/-- `startConversation`, success path.  When `isLive` is already set it
returns at once, changing nothing; otherwise it raises `isLive`, clears the
error, transcript and accumulator, acquires the microphone, opens fresh
input/output audio contexts, resets the playback cursor and connects a new
session. -/
def startConversation (st : PanelState) : PanelState :=
  if st.isLive then st
  else
    { isLive := true
      error := none
      transcription := []
      currentTurn := ⟨"", ""⟩
      sessionPromise := some st.nextSourceId
      inputCtx := some st.nextSourceId
      outputCtx := some (st.nextSourceId + 1)
      mediaStreamTracks := some [st.nextSourceId]
      scriptProcessor := some st.nextSourceId
      nextStartTime := 0
      audioSources := []
      nextSourceId := st.nextSourceId }

/-- A panel in the `Idle` configuration: no session, no devices, no active
buffers, not live. -/
def isIdleState (st : PanelState) : Prop :=
  st.sessionPromise = none ∧ st.mediaStreamTracks = none ∧ st.scriptProcessor = none ∧
    st.inputCtx = none ∧ st.outputCtx = none ∧ st.audioSources = [] ∧ st.isLive = false

instance (st : PanelState) : Decidable (isIdleState st) := by
  unfold isIdleState; infer_instance

/-- A concrete live panel state used in closed instances below. -/
def liveExample : PanelState :=
  { isLive := true
    error := none
    transcription := []
    currentTurn := ⟨"", ""⟩
    sessionPromise := some 0
    inputCtx := some 0
    outputCtx := some 1
    mediaStreamTracks := some [0]
    scriptProcessor := some 0
    nextStartTime := 0
    audioSources := [7]
    nextSourceId := 8 }

/-- A concrete idle panel state used in closed instances below. -/
def idleExample : PanelState :=
  { isLive := false
    error := none
    transcription := []
    currentTurn := ⟨"", ""⟩
    sessionPromise := none
    inputCtx := none
    outputCtx := none
    mediaStreamTracks := none
    scriptProcessor := none
    nextStartTime := 0
    audioSources := []
    nextSourceId := 0 }

/-- An inbound message carrying only an audio chunk of duration `d`. -/
def audioMsg (d : ℚ) : LiveMsg := ⟨none, none, false, some d, false⟩

/-- An inbound message carrying only an interruption signal. -/
def interruptMsg : LiveMsg := ⟨none, none, false, none, true⟩

/-- The base64 alphabet used by `btoa`/`atob` (RFC 4648, HTML spec). -/
def base64Chars : List Char :=
  "ABCDEFGHIJKLMNOPQRSTUVWXYZabcdefghijklmnopqrstuvwxyz0123456789+/".toList

/-- The base64 character of a sextet value. -/
def sextetChar (n : Nat) : Char := base64Chars.getD n 'A'

/-- The sextet value of a base64 character (its index in the alphabet). -/
def sextetOf (c : Char) : Nat := base64Chars.findIdx (fun x => x == c)

/-- `btoa` on the code units of a binary string: groups of three 8-bit
values become four base64 characters, a final group of one or two values is
padded with `=`. -/
def btoaCore : List Nat → List Char
  | [] => []
  | [a] => [sextetChar (a / 4), sextetChar (a % 4 * 16), '=', '=']
  | [a, b] => [sextetChar (a / 4), sextetChar (a % 4 * 16 + b / 16),
               sextetChar (b % 16 * 4), '=']
  | a :: b :: c :: rest =>
      sextetChar (a / 4) :: sextetChar (a % 4 * 16 + b / 16) ::
        sextetChar (b % 16 * 4 + c / 64) :: sextetChar (c % 64) :: btoaCore rest

/-- `atob` producing the code units of the binary string: each group of
four base64 characters yields three 8-bit values, or one or two when the
group carries `=` padding. -/
def atobCore : List Char → List Nat
  | c1 :: c2 :: c3 :: c4 :: rest =>
      if c3 = '=' then [sextetOf c1 * 4 + sextetOf c2 / 16]
      else if c4 = '=' then
        [sextetOf c1 * 4 + sextetOf c2 / 16,
         sextetOf c2 % 16 * 16 + sextetOf c3 / 4]
      else
        (sextetOf c1 * 4 + sextetOf c2 / 16) ::
          (sextetOf c2 % 16 * 16 + sextetOf c3 / 4) ::
          (sextetOf c3 % 4 * 64 + sextetOf c4) :: atobCore rest
  | _ => []

/-- `String.fromCharCode` on each byte: the binary string of a byte list. -/
def strOfCharCodes (l : List Nat) : List Char := l.map Char.ofNat

/-- `charCodeAt` at each index: the code units of a string. -/
def strCharCodes (s : List Char) : List Nat := s.map Char.toNat

/-- `encode` from `src/helpers.ts`: build the binary string with
`String.fromCharCode(bytes[i])` and apply `btoa`. -/
def encode (bytes : List Nat) : List Char := btoaCore (strCharCodes (strOfCharCodes bytes))

/-- `decode` from `src/helpers.ts`: apply `atob` and read the bytes back
with `charCodeAt(i)`. -/
def decode (s : List Char) : List Nat := strCharCodes (strOfCharCodes (atobCore s))

/-- Truncation toward zero: the `ToIntegerOrInfinity` conversion applied
when a JS number is stored into an `Int16Array` element.  Scaling a double
by the power of two 32768 and this truncation are exact, so the rational
model computes the same values as the source. -/
def truncQ (q : ℚ) : ℤ := if 0 ≤ q then ⌊q⌋ else ⌈q⌉

/-- `ToInt16`: wrap an integer into the signed 16-bit range modulo 2^16. -/
def toInt16 (i : ℤ) : ℤ := if 32768 ≤ i % 65536 then i % 65536 - 65536 else i % 65536

/-- `new Int16Array(inputData.map(f => f * 32768))` (capture callback of
`LiveConvoPanel`): each sample is scaled by 32768 and stored, truncating
toward zero and wrapping to 16 bits. -/
def floatToInt16 (s : List ℚ) : List ℤ := s.map fun f => toInt16 (truncQ (f * 32768))

/-- The two little-endian bytes of a stored 16-bit value, as a `Uint8Array`
view of the `Int16Array` buffer exposes them. -/
def int16LEBytes (i : ℤ) : List Nat := [(i % 65536).toNat % 256, (i % 65536).toNat / 256]

/-- `new Uint8Array(new Int16Array(...).buffer)`: the PCM bytes sent for a
captured frame. -/
def floatToInt16Bytes (s : List ℚ) : List Nat := (floatToInt16 s).flatMap int16LEBytes

/-- Saturation into the signed 16-bit range: what "clamped" denotes when
read as saturating arithmetic. -/
def clampInt16 (i : ℤ) : ℤ := max (-32768) (min 32767 i)

/-- Following the spec's words for `floatToInt16` (§4.2) with "clamped"
read as saturation: scale by 32768, truncate toward the stored integer,
saturate out-of-range values into the 16-bit range, serialize
little-endian. -/
def spec_floatToInt16_clamped (s : List ℚ) : List Nat :=
  s.flatMap fun f => int16LEBytes (clampInt16 (truncQ (f * 32768)))

/-- The spec's words for `floatToInt16` with the wrap amendment: scale by
32768, truncate toward the stored integer, wrap modulo 2^16 into the
signed 16-bit range, serialize little-endian. -/
def spec_floatToInt16_wrapped (s : List ℚ) : List Nat :=
  s.flatMap fun f => int16LEBytes (toInt16 (truncQ (f * 32768)))

/-- A signed 16-bit value read from its two little-endian bytes, as an
`Int16Array` element is read. -/
def int16OfPair (lo hi : Nat) : ℤ :=
  if 32768 ≤ lo % 256 + hi % 256 * 256 then (lo % 256 + hi % 256 * 256 : ℤ) - 65536
  else (lo % 256 + hi % 256 * 256 : ℤ)

/-- `new Int16Array(data.buffer)`: consecutive little-endian byte pairs as
signed 16-bit values.  A trailing odd byte cannot occur: the constructor
throws before this view is produced (see `decodeAudioData`). -/
def bytesToInt16 : List Nat → List ℤ
  | lo :: hi :: rest => int16OfPair lo hi :: bytesToInt16 rest
  | _ => []

/-- The exceptions `decodeAudioData` can raise: the `RangeError` thrown by
`new Int16Array(data.buffer)` when the byte length is odd, and the
`NotSupportedError` thrown by `createBuffer` when asked for zero
channels. -/
inductive AudioErr where
  | rangeErr
  | notSupported
  deriving DecidableEq

/-- `decodeAudioData` from `src/helpers.ts`.  An odd byte length makes the
`Int16Array` view construction throw a `RangeError` (it runs first).
`frameCount = dataInt16.length / numChannels` is computed in JS real
division and truncated by `createBuffer`'s WebIDL unsigned-long
conversion; `createBuffer` then throws `NotSupportedError` when asked for
zero channels or zero frames — zero frames arise exactly when the sample
count is below `numChannels` (empty data, or byte length below
`2 × numChannels`; with zero channels the JS frame count is `Infinity`,
which the WebIDL conversion also turns into 0).  The implementation-defined
upper channel limit (at least 32; the app only ever passes 1) is not
modelled.  On success the copy loop's writes at indices at or beyond the
buffer length are dropped by the `Float32Array`, so each channel holds
`⌊samples / numChannels⌋` entries, entry `i` of channel `ch` being
`dataInt16[i * numChannels + ch] / 32768`. -/
def decodeAudioData (data : List Nat) (numChannels : Nat) :
    Except AudioErr (List (List ℚ)) :=
  if data.length % 2 ≠ 0 then .error .rangeErr
  else
    let dataInt16 := bytesToInt16 data
    let frameCount := dataInt16.length / numChannels
    if numChannels = 0 ∨ frameCount = 0 then .error .notSupported
    else
      .ok ((List.range numChannels).map fun ch =>
        (List.range frameCount).map fun i =>
          ((dataInt16.getD (i * numChannels + ch) 0 : ℤ) : ℚ) / 32768)

/-- `view.setUint8(i, v)`: store the low byte of `v` at index `i` of the
buffer.  Out-of-range indices leave the buffer unchanged, as `List.set`
does (the source never writes out of range). -/
def setByte (l : List Nat) (i v : Nat) : List Nat := l.set i (v % 256)

/-- `view.setUint16(i, v, true)`: store the low 16 bits of `v`
little-endian at indices `i`, `i+1`. -/
def setUint16LE (l : List Nat) (i v : Nat) : List Nat :=
  setByte (setByte l i v) (i + 1) (v / 256)

/-- `view.setUint32(i, v, true)`: store the low 32 bits of `v`
little-endian at indices `i`..`i+3`. -/
def setUint32LE (l : List Nat) (i v : Nat) : List Nat :=
  setByte (setByte (setByte (setByte l i v) (i + 1) (v / 256)) (i + 2) (v / 65536))
    (i + 3) (v / 16777216)

/-- `writeString` from `src/helpers.ts`: store the char codes of a string
at consecutive offsets. -/
def writeStr (l : List Nat) (off : Nat) : List Char → List Nat
  | [] => l
  | c :: cs => writeStr (setByte l off c.toNat) (off + 1) cs

/-- The `for` loop copying the PCM payload byte by byte. -/
def writeBytes (l : List Nat) (off : Nat) : List Nat → List Nat
  | [] => l
  | b :: bs => writeBytes (setByte l off b) (off + 1) bs

/-- `createWavBlob` from `src/helpers.ts`: allocate a zeroed buffer of
44 + dataSize bytes and write the RIFF/WAVE header fields and the payload
through a little-endian `DataView`, in source order.  `bitsPerSample / 8`
is JS real division; the model's `Nat` division agrees with it whenever
`bitsPerSample` is a multiple of 8 (the only values the app uses). -/
def createWavBlob (pcmData : List Nat) (sampleRate numChannels bitsPerSample : Nat) :
    List Nat :=
  let dataSize := pcmData.length
  let buffer := List.replicate (44 + dataSize) 0
  let v0 := writeStr buffer 0 "RIFF".toList
  let v1 := setUint32LE v0 4 (36 + dataSize)
  let v2 := writeStr v1 8 "WAVE".toList
  let v3 := writeStr v2 12 "fmt ".toList
  let v4 := setUint32LE v3 16 16
  let v5 := setUint16LE v4 20 1
  let v6 := setUint16LE v5 22 numChannels
  let v7 := setUint32LE v6 24 sampleRate
  let v8 := setUint32LE v7 28 (sampleRate * numChannels * (bitsPerSample / 8))
  let v9 := setUint16LE v8 32 (numChannels * (bitsPerSample / 8))
  let v10 := setUint16LE v9 34 bitsPerSample
  let v11 := writeStr v10 36 "data".toList
  let v12 := setUint32LE v11 40 dataSize
  writeBytes v12 44 pcmData

/-- The two little-endian bytes of a 16-bit field. -/
def u16le (v : Nat) : List Nat := [v % 256, v / 256 % 256]

/-- The four little-endian bytes of a 32-bit field. -/
def u32le (v : Nat) : List Nat := [v % 256, v / 256 % 256, v / 65536 % 256, v / 16777216 % 256]

/-- The 44-byte container header laid out as §4.3 of the spec describes:
"RIFF", total size 36 + payload length, "WAVE", "fmt " with length 16,
format code 1, channel count, sample rate, byte rate, block align,
bits-per-sample, "data" with the payload length — all little-endian. -/
def wavHeaderSpec (sampleRate numChannels bitsPerSample dataSize : Nat) : List Nat :=
  "RIFF".toList.map Char.toNat ++ u32le (36 + dataSize) ++
    "WAVE".toList.map Char.toNat ++ "fmt ".toList.map Char.toNat ++ u32le 16 ++
    u16le 1 ++ u16le numChannels ++ u32le sampleRate ++
    u32le (sampleRate * numChannels * (bitsPerSample / 8)) ++
    u16le (numChannels * (bitsPerSample / 8)) ++ u16le bitsPerSample ++
    "data".toList.map Char.toNat ++ u32le dataSize

/-! ### Theorems -/

/-- C1: an inbound audio chunk of duration `d` is scheduled at
`max(cursor.nextStartTime, now)` and the cursor is then set to that start
time plus `d`; three chunks of durations `d1, d2, d3` all arriving at clock
time `t0` on a scheduler whose cursor is at most `t0` start at `t0`,
`t0 + d1` and `t0 + d1 + d2` — back to back, no overlap and no gap. -/
theorem onmessage_audio_start_times (ct : Turn) (st0 : PanelState) (t0 d1 d2 d3 : ℚ)
    (hc : st0.nextStartTime ≤ t0) (h1 : 0 ≤ d1) (h2 : 0 ≤ d2) :
    (∀ (st : PanelState) (now d : ℚ),
        (onmessage ct now st (audioMsg d)).2 =
          [Act.startSource st.nextSourceId (max st.nextStartTime now)] ∧
        (onmessage ct now st (audioMsg d)).1.nextStartTime = max st.nextStartTime now + d) ∧
    (onmessage ct t0 st0 (audioMsg d1)).2 = [Act.startSource st0.nextSourceId t0] ∧
    (onmessage ct t0 (onmessage ct t0 st0 (audioMsg d1)).1 (audioMsg d2)).2 =
      [Act.startSource (st0.nextSourceId + 1) (t0 + d1)] ∧
    (onmessage ct t0
        (onmessage ct t0 (onmessage ct t0 st0 (audioMsg d1)).1 (audioMsg d2)).1
        (audioMsg d3)).2 =
      [Act.startSource (st0.nextSourceId + 2) (t0 + d1 + d2)] := by
  have e1 : max st0.nextStartTime t0 = t0 := max_eq_right hc
  have e2 : max (t0 + d1) t0 = t0 + d1 := max_eq_left (le_add_of_nonneg_right h1)
  have e3 : max (t0 + d1 + d2) t0 = t0 + d1 + d2 := by
    refine max_eq_left ?_
    have : (0:ℚ) ≤ d1 + d2 := add_nonneg h1 h2
    linarith
  refine ⟨fun st now d => ⟨rfl, rfl⟩, ?_, ?_, ?_⟩ <;>
    simp [onmessage, audioMsg, e1, e2, e3, add_assoc, h1, h2, add_nonneg h1 h2]

/-- Closed instance of `onmessage_audio_start_times` at a concrete scheduler
state and chunk durations. -/
theorem onmessage_audio_start_times_witness :
    (onmessage ⟨"", ""⟩ 1 idleExample (audioMsg (1/2))).2 = [Act.startSource 0 1] ∧
    (onmessage ⟨"", ""⟩ 1 (onmessage ⟨"", ""⟩ 1 idleExample (audioMsg (1/2))).1
        (audioMsg (1/3))).2 = [Act.startSource 1 (1 + 1/2)] := by
  have h := onmessage_audio_start_times ⟨"", ""⟩ idleExample 1 (1/2) (1/3) 2
    (by norm_num [idleExample]) (by norm_num) (by norm_num)
  exact ⟨h.2.1, h.2.2.1⟩

/-- C2: processing an inbound interruption signal force-stops every buffer in
the active set and emits nothing else (in particular it starts no new
buffer), leaves the active set empty, resets the cursor to 0, and the next
chunk scheduled afterwards starts at the then-current clock time. -/
theorem onmessage_interrupted_clears (ct : Turn) (now : ℚ) (st : PanelState) :
    (onmessage ct now st interruptMsg).1.audioSources = [] ∧
    (onmessage ct now st interruptMsg).1.nextStartTime = 0 ∧
    (onmessage ct now st interruptMsg).2 = st.audioSources.map Act.stopSource ∧
    (∀ id ∈ st.audioSources, Act.stopSource id ∈ (onmessage ct now st interruptMsg).2) ∧
    (∀ now2 d : ℚ, 0 ≤ now2 →
      (onmessage ct now2 (onmessage ct now st interruptMsg).1 (audioMsg d)).2 =
        [Act.startSource st.nextSourceId now2]) := by
  refine ⟨rfl, rfl, by simp [onmessage, interruptMsg], ?_, ?_⟩
  · intro id h
    simp only [onmessage, interruptMsg]
    exact List.mem_map_of_mem _ h
  · intro now2 d h
    simp [onmessage, interruptMsg, audioMsg, max_eq_right h]

/-- Closed instance of `onmessage_interrupted_clears`: interrupting a panel
with active source 7 stops it, empties the set, and the next chunk at clock
time 2 starts at 2. -/
theorem onmessage_interrupted_clears_witness :
    (onmessage ⟨"", ""⟩ 0 liveExample interruptMsg).1.audioSources = [] ∧
    Act.stopSource 7 ∈ (onmessage ⟨"", ""⟩ 0 liveExample interruptMsg).2 ∧
    (onmessage ⟨"", ""⟩ 2 (onmessage ⟨"", ""⟩ 0 liveExample interruptMsg).1
        (audioMsg 1)).2 = [Act.startSource 8 2] := by
  have h := onmessage_interrupted_clears ⟨"", ""⟩ 0 liveExample
  exact ⟨h.1, h.2.2.2.1 7 (by decide), h.2.2.2.2 2 1 (by norm_num)⟩

/-- C10: invoking `startConversation` while the panel is already live returns
immediately and changes nothing — no state field is touched and no second
session or capture pipeline is created. -/
theorem startConversation_live_noop (st : PanelState) (h : st.isLive = true) :
    startConversation st = st := by
  simp [startConversation, h]

/-- Closed instance of `startConversation_live_noop` at a concrete live
panel state. -/
theorem startConversation_live_noop_witness :
    startConversation liveExample = liveExample :=
  startConversation_live_noop liveExample rfl

/-- C3 counterexample: a second `stopConversation` on a live panel re-issues
the release calls.  Only `sessionPromiseRef` is nulled by the first stop, so
the second invocation stops the microphone track again and calls `close()`
again on the (already closed) input audio context — the same resources are
released twice. -/
theorem stopConversation_double_release :
    Act.closeInputCtx ∈ (stopConversation liveExample).2 ∧
    Act.closeInputCtx ∈ (stopConversation (stopConversation liveExample).1).2 ∧
    Act.stopTrack 0 ∈ (stopConversation liveExample).2 ∧
    Act.stopTrack 0 ∈ (stopConversation (stopConversation liveExample).1).2 := by
  decide

/-- C3 (amended): the final state of teardown is idempotent — a second
`stopConversation` produces the same state (not live, channel handle null,
active buffers cleared), every active buffer is stopped and every microphone
track receives `stop()`, and stopping an idle panel is a complete no-op; but
a second invocation re-issues the release calls on the media stream,
processor and contexts, because only the session ref is nulled. -/
theorem stopConversation_idempotent_state (st : PanelState) :
    (stopConversation (stopConversation st).1).1 = (stopConversation st).1 ∧
    (stopConversation st).1.isLive = false ∧
    (stopConversation st).1.sessionPromise = none ∧
    (stopConversation st).1.audioSources = [] ∧
    (∀ id ∈ st.audioSources, Act.stopSource id ∈ (stopConversation st).2) ∧
    (∀ ts, st.mediaStreamTracks = some ts →
      ∀ t ∈ ts, Act.stopTrack t ∈ (stopConversation st).2) ∧
    (isIdleState st → stopConversation st = (st, [])) := by
  obtain ⟨live, err, tr, cur, sp, ic, oc, mst, proc, nst, srcs, nid⟩ := st
  refine ⟨?_, ?_, ?_, ?_, ?_, ?_, ?_⟩
  · cases sp <;> simp [stopConversation]
  · cases sp <;> simp [stopConversation]
  · cases sp <;> simp [stopConversation]
  · cases sp <;> simp [stopConversation]
  · intro id h
    exact List.mem_append_right _ (List.mem_map_of_mem _ h)
  · rintro ts rfl t ht
    exact List.mem_append_left _ (List.mem_append_left _ (List.mem_append_left _
      (List.mem_append_left _ (List.mem_append_right _ (List.mem_map_of_mem _ ht)))))
  · rintro ⟨hsp, hmst, hproc, hic, hoc, hsrcs, hlive⟩
    simp only at hsp hmst hproc hic hoc hsrcs hlive
    subst hsp; subst hmst; subst hproc; subst hic; subst hoc; subst hsrcs; subst hlive
    simp [stopConversation]

/-- Closed instance of `stopConversation_idempotent_state`: idempotent final
state on a live panel, the microphone track is stopped, and stopping the
idle panel is a no-op. -/
theorem stopConversation_idempotent_state_witness :
    (stopConversation (stopConversation liveExample).1).1 = (stopConversation liveExample).1 ∧
    Act.stopTrack 0 ∈ (stopConversation liveExample).2 ∧
    stopConversation idleExample = (idleExample, []) := by
  refine ⟨(stopConversation_idempotent_state liveExample).1, ?_, ?_⟩
  · exact (stopConversation_idempotent_state liveExample).2.2.2.2.2.1 [0] rfl 0 (by decide)
  · exact (stopConversation_idempotent_state idleExample).2.2.2.2.2.2 (by decide)

/-- C9: evaluating the `onmessage` handler at the failing input.  In a fresh
session the closure-captured `currentTurn` is `⟨"", ""⟩`; a message carrying
the transcript fragment "hi" together with `turnComplete` appends the stale
closure value `⟨"", ""⟩` to the transcript log, not the accumulated
`⟨"hi", ""⟩` — the third conjunct shows the accumulator does hold
`⟨"hi", ""⟩` just before the turn-complete branch runs. -/
theorem onmessage_turnComplete_stale_append :
    (onmessage ⟨"", ""⟩ 0 (startConversation idleExample)
        ⟨some "hi", none, true, none, false⟩).1.transcription = [⟨"", ""⟩] ∧
    (⟨"", ""⟩ : Turn) ≠ ⟨"hi", ""⟩ ∧
    (onmessage ⟨"", ""⟩ 0 (startConversation idleExample)
        ⟨some "hi", none, false, none, false⟩).1.currentTurn = ⟨"hi", ""⟩ ∧
    (onmessage ⟨"", ""⟩ 0 (startConversation idleExample)
        ⟨some "hi", none, true, none, false⟩).1.currentTurn = ⟨"", ""⟩ := by
  refine ⟨rfl, by decide, rfl, rfl⟩

theorem sextet_round : ∀ n, n < 64 → sextetOf (sextetChar n) = n := by decide

theorem sextetChar_ne_pad : ∀ n, n < 64 → sextetChar n ≠ '=' := by decide

set_option maxRecDepth 4000 in
theorem charCode_round : ∀ x, x < 256 → (Char.ofNat x).toNat = x := by decide

/-- Building a binary string from bytes below 256 and reading its code
units back is the identity. -/
theorem codes_round (b : List Nat) (h : ∀ x ∈ b, x < 256) :
    strCharCodes (strOfCharCodes b) = b := by
  induction b with
  | nil => rfl
  | cons a t ih =>
      have ha : a < 256 := h a (by simp)
      have := ih (fun x hx => h x (by simp [hx]))
      simp only [strOfCharCodes, strCharCodes, List.map_cons] at this ⊢
      rw [charCode_round a ha]
      simpa [strOfCharCodes, strCharCodes] using this

/-- base64 round-trip on code-unit lists: decoding an encoding of any byte
sequence gives the sequence back. -/
theorem atobCore_btoaCore : ∀ (b : List Nat), (∀ x ∈ b, x < 256) →
    atobCore (btoaCore b) = b
  | [], _ => rfl
  | [a], h => by
      have ha : a < 256 := h a (by simp)
      have e1 := sextet_round (a / 4) (by omega)
      have e2 := sextet_round (a % 4 * 16) (by omega)
      simp [btoaCore, atobCore, e1, e2]
      omega
  | [a, b], h => by
      have ha : a < 256 := h a (by simp)
      have hb : b < 256 := h b (by simp)
      have e1 := sextet_round (a / 4) (by omega)
      have e2 := sextet_round (a % 4 * 16 + b / 16) (by omega)
      have e3 := sextet_round (b % 16 * 4) (by omega)
      have n3 : sextetChar (b % 16 * 4) ≠ '=' := sextetChar_ne_pad _ (by omega)
      simp [btoaCore, atobCore, e1, e2, e3, n3]
      omega
  | a :: b :: c :: rest, h => by
      have ha : a < 256 := h a (by simp)
      have hb : b < 256 := h b (by simp)
      have hc : c < 256 := h c (by simp)
      have e1 := sextet_round (a / 4) (by omega)
      have e2 := sextet_round (a % 4 * 16 + b / 16) (by omega)
      have e3 := sextet_round (b % 16 * 4 + c / 64) (by omega)
      have e4 := sextet_round (c % 64) (by omega)
      have n3 : sextetChar (b % 16 * 4 + c / 64) ≠ '=' := sextetChar_ne_pad _ (by omega)
      have n4 : sextetChar (c % 64) ≠ '=' := sextetChar_ne_pad _ (by omega)
      have ih := atobCore_btoaCore rest (fun x hx => h x (by simp [hx]))
      simp [btoaCore, atobCore, e1, e2, e3, e4, n3, n4, ih]
      omega

/-- C4: for every byte sequence `b` (all values below 256, including the
empty sequence), `decode (encode b) = b` — the codec's encode and decode are
mutual inverses on bytes. -/
theorem decode_encode (b : List Nat) (h : ∀ x ∈ b, x < 256) :
    decode (encode b) = b := by
  unfold decode encode
  rw [codes_round b h, atobCore_btoaCore b h, codes_round b h]

/-- Closed instance of `decode_encode`: the empty sequence and the sequence
of all 256 byte values both round-trip. -/
theorem decode_encode_witness :
    decode (encode []) = [] ∧ decode (encode (List.range 256)) = List.range 256 :=
  ⟨decode_encode [] (by simp),
   decode_encode (List.range 256) (by intro x hx; exact List.mem_range.mp hx)⟩

theorem truncQ_ofInt (n : ℤ) : truncQ ((n : ℚ)) = n := by
  unfold truncQ
  split
  · rw [Int.floor_intCast]
  · rw [Int.ceil_intCast]

theorem truncQ_abs_le (x : ℚ) : |((truncQ x : ℤ) : ℚ) - x| ≤ 1 := by
  unfold truncQ
  split
  · have h1 := Int.floor_le x
    have h2 := Int.lt_floor_add_one x
    rw [abs_le]; constructor <;> linarith
  · have h1 := Int.le_ceil x
    have h2 := Int.ceil_lt_add_one x
    rw [abs_le]; constructor <;> linarith

theorem truncQ_range (x : ℚ) (h1 : -32768 ≤ x) (h2 : x < 32768) :
    -32768 ≤ truncQ x ∧ truncQ x < 32768 := by
  unfold truncQ
  split
  next hx =>
    constructor
    · have : (0:ℤ) ≤ ⌊x⌋ := Int.floor_nonneg.mpr hx
      omega
    · have hf : (⌊x⌋ : ℚ) ≤ x := Int.floor_le x
      have : (⌊x⌋ : ℚ) < 32768 := lt_of_le_of_lt hf h2
      exact_mod_cast this
  next hx =>
    push_neg at hx
    constructor
    · have hc : x ≤ (⌈x⌉ : ℚ) := Int.le_ceil x
      have : (-32768 : ℚ) ≤ (⌈x⌉ : ℚ) := le_trans h1 hc
      exact_mod_cast this
    · have : ⌈x⌉ ≤ 0 := Int.ceil_le.mpr (by exact_mod_cast hx.le)
      omega

theorem toInt16_eq_self (i : ℤ) (h1 : -32768 ≤ i) (h2 : i < 32768) : toInt16 i = i := by
  unfold toInt16
  split <;> omega

theorem toInt16_range (i : ℤ) : -32768 ≤ toInt16 i ∧ toInt16 i < 32768 := by
  unfold toInt16
  constructor <;> split <;> omega

theorem int16OfPair_round (i : ℤ) (h1 : -32768 ≤ i) (h2 : i < 32768) :
    int16OfPair ((i % 65536).toNat % 256) ((i % 65536).toNat / 256) = i := by
  unfold int16OfPair
  split <;> omega

/-- One quantized sample in `[-1, 1)` decodes back within one step. -/
theorem sample_round (f : ℚ) (hlo : -1 ≤ f) (hhi : f < 1) :
    |((toInt16 (truncQ (f * 32768)) : ℤ) : ℚ) / 32768 - f| ≤ 1 / 32768 := by
  have hx1 : -32768 ≤ f * 32768 := by linarith
  have hx2 : f * 32768 < 32768 := by linarith
  obtain ⟨r1, r2⟩ := truncQ_range (f * 32768) hx1 hx2
  rw [toInt16_eq_self _ r1 r2]
  have habs := truncQ_abs_le (f * 32768)
  have key : ((truncQ (f * 32768) : ℤ) : ℚ) / 32768 - f
      = (((truncQ (f * 32768) : ℤ) : ℚ) - f * 32768) / 32768 := by ring
  rw [key, abs_div, abs_of_pos (by norm_num : (0:ℚ) < 32768)]
  gcongr

/-- Serializing in-range 16-bit values little-endian and viewing the bytes
as an `Int16Array` gives the values back. -/
theorem bytesToInt16_flatMap : ∀ (l : List ℤ), (∀ i ∈ l, -32768 ≤ i ∧ i < 32768) →
    bytesToInt16 (l.flatMap int16LEBytes) = l
  | [], _ => rfl
  | i :: t, h => by
      obtain ⟨h1, h2⟩ := h i (by simp)
      have ih := bytesToInt16_flatMap t (fun j hj => h j (by simp [hj]))
      simp only [List.flatMap_cons, int16LEBytes, List.cons_append, List.nil_append]
      simp only [bytesToInt16, ih]
      rw [int16OfPair_round i h1 h2]

theorem length_flatMap_int16 : ∀ l : List ℤ, (l.flatMap int16LEBytes).length = 2 * l.length
  | [] => rfl
  | i :: t => by
      simp only [List.flatMap_cons, int16LEBytes, List.length_append, List.length_cons,
        List.length_nil, length_flatMap_int16 t]
      omega

theorem range_map_getD {α : Type} (n i : Nat) (f : Nat → α) (d : α) (h : i < n) :
    ((List.range n).map f).getD i d = f i := by
  rw [List.getD_eq_getElem _ _ (by simpa using h)]
  simp

/-- C6 counterexample: the out-of-range sample 2.0 scales to 65536, which
the `Int16Array` store wraps to 0; clamping would store 32767 (bytes
255, 127).  The code wraps modulo 2^16, it does not clamp. -/
theorem floatToInt16_wraps_not_clamps :
    floatToInt16Bytes [(2 : ℚ)] = [0, 0] ∧
    spec_floatToInt16_clamped [(2 : ℚ)] = [255, 127] ∧
    floatToInt16Bytes [(2 : ℚ)] ≠ spec_floatToInt16_clamped [(2 : ℚ)] := by
  have hx : truncQ ((2:ℚ) * 32768) = 65536 := by
    have e : ((65536 : ℤ) : ℚ) = (2:ℚ) * 32768 := by norm_num
    rw [← e, truncQ_ofInt]
  have h1 : floatToInt16Bytes [(2 : ℚ)] = [0, 0] := by
    simp [floatToInt16Bytes, floatToInt16, hx, toInt16, int16LEBytes]
  have h2 : spec_floatToInt16_clamped [(2 : ℚ)] = [255, 127] := by
    simp [spec_floatToInt16_clamped, hx, clampInt16, int16LEBytes]
  exact ⟨h1, h2, by rw [h1, h2]; simp⟩

/-- C6 (amended): `floatToInt16` maps each sample by scaling it by 32768,
truncating toward the stored integer, wrapping modulo 2^16 into the signed
16-bit range, and serializing little-endian; out-of-range samples are
wrapped by the 16-bit store (lossy, never an error), not clamped. -/
theorem floatToInt16Bytes_eq_spec_wrapped (s : List ℚ) :
    floatToInt16Bytes s = spec_floatToInt16_wrapped s := by
  unfold floatToInt16Bytes floatToInt16 spec_floatToInt16_wrapped
  induction s with
  | nil => rfl
  | cons f t ih => simp [ih]

/-- C5 counterexample: the in-range sample 1.0 scales to 32768, which the
`Int16Array` store wraps to -32768; the decoded sample is -1.0, off by 2 —
far beyond one quantization step.  The last conjunct shows the empty
sequence is in the claim's domain yet never decodes at all: `createBuffer`
with a zero frame count throws `NotSupportedError`. -/
theorem pcm_round_trip_cex :
    ((-1 : ℚ) ≤ 1 ∧ (1 : ℚ) ≤ 1) ∧
    decodeAudioData (floatToInt16Bytes [(1 : ℚ)]) 1 = Except.ok [[-1]] ∧
    ¬ (|(-1 : ℚ) - 1| ≤ 1 / 32768) ∧
    decodeAudioData (floatToInt16Bytes []) 1 = Except.error AudioErr.notSupported := by
  refine ⟨by norm_num, ?_, by norm_num, rfl⟩
  have hm : floatToInt16 [(1 : ℚ)] = [-32768] := by
    simp only [floatToInt16, List.map_cons, List.map_nil]
    rw [show (1:ℚ) * 32768 = ((32768 : ℤ) : ℚ) from by norm_num, truncQ_ofInt]
    decide
  have h1 : floatToInt16Bytes [(1 : ℚ)] = [0, 128] := by
    simp only [floatToInt16Bytes, hm, List.flatMap_cons, List.flatMap_nil]
    decide
  rw [h1]
  simp [decodeAudioData, bytesToInt16, int16OfPair, List.range_succ]

/-- C5 (amended): for every nonempty sample sequence with values in
`[-1, 1)`, converting to 16-bit PCM bytes (capture path) and decoding back
to floats (playback path, mono) yields a channel of the same length in
which every sample differs from the original by at most one quantization
step, 1/32768.  The right endpoint 1.0 must be excluded — it wraps to
-32768 — and so must the empty sequence, which the decoder rejects with
`NotSupportedError` (see the counterexample for both). -/
theorem pcm_round_trip (s : List ℚ) (hne : s ≠ []) (h : ∀ f ∈ s, -1 ≤ f ∧ f < 1) :
    ∃ r : List ℚ, decodeAudioData (floatToInt16Bytes s) 1 = Except.ok [r] ∧
      r.length = s.length ∧
      ∀ i < s.length, |r.getD i 0 - s.getD i 0| ≤ 1 / 32768 := by
  have hrange : ∀ j ∈ floatToInt16 s, -32768 ≤ j ∧ j < 32768 := by
    intro j hj
    simp only [floatToInt16, List.mem_map] at hj
    obtain ⟨f, _, rfl⟩ := hj
    exact toInt16_range _
  have hb : bytesToInt16 (floatToInt16Bytes s) = floatToInt16 s :=
    bytesToInt16_flatMap (floatToInt16 s) hrange
  have hfl : (floatToInt16 s).length = s.length := by simp [floatToInt16]
  have hlen2 : (floatToInt16Bytes s).length = 2 * s.length := by
    unfold floatToInt16Bytes
    rw [length_flatMap_int16, hfl]
  refine ⟨(List.range s.length).map
      (fun i => ((floatToInt16 s).getD (i * 1 + 0) 0 : ℚ) / 32768), ?_, ?_, ?_⟩
  · unfold decodeAudioData
    rw [if_neg (by omega)]
    simp only [hb, hfl, Nat.div_one]
    rw [if_neg (by
      rintro (hc | hc)
      · omega
      · exact hne (List.length_eq_zero.mp hc))]
    rfl
  · simp
  · intro i hi
    rw [range_map_getD _ _ _ _ hi]
    have hgi : (floatToInt16 s).getD (i * 1 + 0) 0 = toInt16 (truncQ (s.getD i 0 * 32768)) := by
      rw [List.getD_eq_getElem _ _ (by omega : i * 1 + 0 < (floatToInt16 s).length),
        List.getD_eq_getElem _ _ (by omega : i < s.length)]
      simp [floatToInt16]
    rw [hgi]
    obtain ⟨hl, hr⟩ := h (s.getD i 0) (by
      rw [List.getD_eq_getElem _ _ (by omega : i < s.length)]
      exact List.getElem_mem _)
    exact sample_round _ hl hr

/-- Closed instance of `pcm_round_trip` at the sample sequence
`[1/2, -1, 0]`. -/
theorem pcm_round_trip_witness :
    ∃ r : List ℚ, decodeAudioData (floatToInt16Bytes [1/2, -1, 0]) 1 = Except.ok [r] ∧
      r.length = ([1/2, -1, 0] : List ℚ).length ∧
      ∀ i < ([1/2, -1, 0] : List ℚ).length,
        |r.getD i 0 - ([1/2, -1, 0] : List ℚ).getD i 0| ≤ 1 / 32768 :=
  pcm_round_trip [1/2, -1, 0] (by simp) (by
    intro f hf
    simp only [List.mem_cons, List.not_mem_nil, or_false] at hf
    rcases hf with rfl | rfl | rfl <;> norm_num)

theorem bytesToInt16_length : ∀ data : List Nat, (bytesToInt16 data).length = data.length / 2
  | [] => rfl
  | [b] => by simp [bytesToInt16]
  | lo :: hi :: rest => by
      simp only [bytesToInt16, List.length_cons, bytesToInt16_length rest]
      omega

theorem bytesToInt16_getD : ∀ (data : List Nat) (k : Nat), 2 * k + 1 < data.length →
    (bytesToInt16 data).getD k 0 =
      int16OfPair (data.getD (2 * k) 0) (data.getD (2 * k + 1) 0)
  | [], k, h => by simp at h
  | [b], k, h => by simp at h
  | lo :: hi :: rest, 0, _ => rfl
  | lo :: hi :: rest, k + 1, h => by
      have ih := bytesToInt16_getD rest k (by simp at h; omega)
      simp only [bytesToInt16]
      rw [List.getD_cons_succ, ih,
        show 2 * (k + 1) = 2 * k + 1 + 1 from by ring,
        List.getD_cons_succ, List.getD_cons_succ,
        List.getD_cons_succ, List.getD_cons_succ]

/-- C8 counterexample: a 10-byte buffer with 2 channels (byte length not a
multiple of 2 × channelCount) does not fail — the fractional frame count
10 / 2 / 2 = 2.5 is silently truncated to 2 frames per channel and the
fifth sample is dropped.  No `InvalidBufferLength` error exists anywhere:
even when such an input is rejected, as a 2-byte buffer with 2 channels is
(truncated frame count 0), the error is `createBuffer`'s
`NotSupportedError`. -/
theorem decodeAudioData_no_length_check :
    ((10 : Nat) % (2 * 2) ≠ 0 ∧
      decodeAudioData (List.replicate 10 0) 2 = Except.ok [[0, 0], [0, 0]]) ∧
    ((2 : Nat) % (2 * 2) ≠ 0 ∧
      decodeAudioData (List.replicate 2 0) 2 = Except.error AudioErr.notSupported) := by
  refine ⟨⟨by decide, ?_⟩, ⟨by decide, rfl⟩⟩
  simp [decodeAudioData, List.replicate, bytesToInt16, int16OfPair, List.range_succ]

/-- C8 (amended): `decodeAudioData` de-interleaves the 16-bit samples into
one sequence per channel, dividing each by 32768.  No `InvalidBufferLength`
error exists: an odd byte length fails with the generic `RangeError` of the
`Int16Array` view; an input whose truncated frame count
`⌊samples / channelCount⌋` is zero — zero channels, empty data, or byte
length below `2 × channelCount` — fails with `createBuffer`'s
`NotSupportedError`; and a byte length that is even and at least
`2 × channelCount` but not a multiple of it is not rejected at all: the
frame count is truncated downward and trailing samples are dropped. -/
theorem decodeAudioData_deinterleaves (data : List Nat) (nc : Nat) :
    (data.length % 2 ≠ 0 → decodeAudioData data nc = Except.error AudioErr.rangeErr) ∧
    (data.length % 2 = 0 → (nc = 0 ∨ data.length / 2 / nc = 0) →
      decodeAudioData data nc = Except.error AudioErr.notSupported) ∧
    (0 < nc → data.length % 2 = 0 → 0 < data.length / 2 / nc →
      ∃ cs, decodeAudioData data nc = Except.ok cs ∧ cs.length = nc ∧
        ∀ ch < nc, (cs.getD ch []).length = data.length / 2 / nc ∧
          ∀ i < data.length / 2 / nc, (cs.getD ch []).getD i 0 =
            ((int16OfPair (data.getD (2 * (i * nc + ch)) 0)
                (data.getD (2 * (i * nc + ch) + 1) 0) : ℤ) : ℚ) / 32768) := by
  have hlen : (bytesToInt16 data).length = data.length / 2 := bytesToInt16_length data
  refine ⟨?_, ?_, ?_⟩
  · intro hodd
    unfold decodeAudioData
    rw [if_pos hodd]
  · intro heven hzero
    unfold decodeAudioData
    rw [if_neg (by omega)]
    simp only [hlen]
    rw [if_pos hzero]
  · intro hnc heven hpos
    refine ⟨(List.range nc).map fun ch =>
        (List.range (data.length / 2 / nc)).map fun i =>
          (((bytesToInt16 data).getD (i * nc + ch) 0 : ℤ) : ℚ) / 32768, ?_, ?_, ?_⟩
    · unfold decodeAudioData
      rw [if_neg (by omega)]
      simp only [hlen]
      rw [if_neg (by
        rintro (hc | hc)
        · exact absurd hc (Nat.pos_iff_ne_zero.mp hnc)
        · exact absurd hc (Nat.pos_iff_ne_zero.mp hpos))]
    · simp
    · intro ch hch
      constructor
      · rw [range_map_getD _ _ _ _ hch]
        simp
      · intro i hi
        rw [range_map_getD _ _ _ _ hch, range_map_getD _ _ _ _ hi]
        have ha : i * nc + ch < (i + 1) * nc := by
          have := Nat.add_lt_add_left hch (i * nc)
          rwa [← Nat.succ_mul] at this
        have hb2 : (i + 1) * nc ≤ data.length / 2 / nc * nc :=
          Nat.mul_le_mul_right nc hi
        have h2 : data.length / 2 / nc * nc ≤ data.length / 2 := Nat.div_mul_le_self _ _
        have h3 : i * nc + ch < data.length / 2 := lt_of_lt_of_le (lt_of_lt_of_le ha hb2) h2
        rw [bytesToInt16_getD data (i * nc + ch) (by omega)]

/-- Closed instance of `decodeAudioData_deinterleaves`: an odd-length
buffer fails with the range error; an empty buffer with 2 channels fails
with the not-supported error; the two bytes `[0, 128]` decode to the
single mono sample -32768/32768. -/
theorem decodeAudioData_deinterleaves_witness :
    decodeAudioData [0] 1 = Except.error AudioErr.rangeErr ∧
    decodeAudioData ([] : List Nat) 2 = Except.error AudioErr.notSupported ∧
    ∃ cs, decodeAudioData [0, 128] 1 = Except.ok cs ∧ cs.length = 1 ∧
      ∀ ch < 1, (cs.getD ch []).length = ([0, 128] : List Nat).length / 2 / 1 ∧
        ∀ i < ([0, 128] : List Nat).length / 2 / 1, (cs.getD ch []).getD i 0 =
          ((int16OfPair (([0, 128] : List Nat).getD (2 * (i * 1 + ch)) 0)
              (([0, 128] : List Nat).getD (2 * (i * 1 + ch) + 1) 0) : ℤ) : ℚ) / 32768 :=
  ⟨(decodeAudioData_deinterleaves [0] 1).1 (by decide),
   (decodeAudioData_deinterleaves [] 2).2.1 (by decide) (by decide),
   (decodeAudioData_deinterleaves [0, 128] 1).2.2 (by decide) (by decide) (by decide)⟩

theorem set_append_len (pre : List Nat) (x y : Nat) (t : List Nat) :
    (pre ++ x :: t).set pre.length y = pre ++ y :: t := by
  induction pre with
  | nil => rfl
  | cons a p ih => simp [List.set_cons_succ, ih]

theorem writeBytes_fill : ∀ (bs pre : List Nat),
    writeBytes (pre ++ List.replicate bs.length 0) pre.length bs = pre ++ bs.map (· % 256)
  | [], pre => by simp [writeBytes]
  | b :: bs, pre => by
      have h2 := writeBytes_fill bs (pre ++ [b % 256])
      rw [show ((pre ++ [b % 256]) : List Nat) ++ List.replicate bs.length 0
            = pre ++ (b % 256) :: List.replicate bs.length 0 from by simp,
        show ((pre ++ [b % 256]) : List Nat).length = pre.length + 1 from by simp] at h2
      simp only [List.length_cons, List.replicate_succ, writeBytes, setByte]
      rw [set_append_len, h2]
      simp

theorem writeBytes_merge : ∀ (bs1 l : List Nat) (off off2 : Nat) (bs2 : List Nat),
    off2 = off + bs1.length →
    writeBytes (writeBytes l off bs1) off2 bs2 = writeBytes l off (bs1 ++ bs2)
  | [], l, off, off2, bs2, h => by
      simp only [List.length_nil, Nat.add_zero] at h
      subst h
      simp [writeBytes]
  | b :: bs1, l, off, off2, bs2, h => by
      simp only [writeBytes, List.cons_append]
      exact writeBytes_merge bs1 (setByte l off b) (off + 1) off2 bs2
        (by simp only [List.length_cons] at h; omega)

theorem writeStr_eq : ∀ (cs : List Char) (l : List Nat) (off : Nat),
    writeStr l off cs = writeBytes l off (cs.map Char.toNat)
  | [], _, _ => rfl
  | c :: cs, l, off => by
      simp only [writeStr, writeBytes, List.map_cons]
      exact writeStr_eq cs _ _

theorem setUint16LE_eq (l : List Nat) (i v : Nat) :
    setUint16LE l i v = writeBytes l i [v, v / 256] := rfl

theorem setUint32LE_eq (l : List Nat) (i v : Nat) :
    setUint32LE l i v = writeBytes l i [v, v / 256, v / 65536, v / 16777216] := rfl

theorem map_mod_eq_self (l : List Nat) (h : ∀ b ∈ l, b < 256) : l.map (· % 256) = l := by
  induction l with
  | nil => rfl
  | cons b t ih =>
      simp only [List.map_cons]
      rw [Nat.mod_eq_of_lt (h b (by simp)), ih (fun x hx => h x (by simp [hx]))]

theorem writeBytes_fill_zero (bs : List Nat) (m : Nat) (hm : m = bs.length) :
    writeBytes (List.replicate m 0) 0 bs = bs.map (· % 256) := by
  subst hm
  have key := writeBytes_fill bs []
  simpa using key

/-- C7: for every PCM payload of bytes, the container serializer produces
exactly the 44-byte little-endian header of §4.3 followed by the payload
verbatim: "RIFF", total size 36 + length, "WAVE", "fmt " of length 16,
format code 1, channel count, sample rate, byte rate, block align,
bits-per-sample, "data", payload length, payload. -/
theorem createWavBlob_layout (pcm : List Nat) (sr nc bps : Nat) (h : ∀ b ∈ pcm, b < 256) :
    createWavBlob pcm sr nc bps = wavHeaderSpec sr nc bps pcm.length ++ pcm ∧
    (wavHeaderSpec sr nc bps pcm.length).length = 44 ∧
    (createWavBlob pcm sr nc bps).length = 44 + pcm.length := by
  have hR : "RIFF".toList.map Char.toNat = [82, 73, 70, 70] := by decide
  have hW : "WAVE".toList.map Char.toNat = [87, 65, 86, 69] := by decide
  have hF : "fmt ".toList.map Char.toNat = [102, 109, 116, 32] := by decide
  have hD : "data".toList.map Char.toNat = [100, 97, 116, 97] := by decide
  have hlen : (wavHeaderSpec sr nc bps pcm.length).length = 44 := by
    rw [wavHeaderSpec]
    simp [hR, hW, hF, hD, u16le, u32le]
  have hmain : createWavBlob pcm sr nc bps = wavHeaderSpec sr nc bps pcm.length ++ pcm := by
    simp only [createWavBlob, writeStr_eq, setUint16LE_eq, setUint32LE_eq, hR, hW, hF, hD]
    simp only [writeBytes_merge, List.length_append, List.length_cons, List.length_nil,
      List.cons_append, List.nil_append]
    rw [writeBytes_fill_zero]
    · simp only [List.map_cons, map_mod_eq_self pcm h, wavHeaderSpec, u16le, u32le,
        hR, hW, hF, hD, List.cons_append, List.nil_append, List.append_assoc]
    · simp only [List.length_cons]
      omega
  exact ⟨hmain, hlen, by rw [hmain, List.length_append, hlen]⟩

/-- Closed instance of `createWavBlob_layout`: a 10-byte payload serialized
at 24000 Hz, mono, 16-bit gives exactly 54 bytes — "RIFF", size 46,
"WAVE", "fmt " with 16, format 1, 1 channel, rate 24000 (bytes 192, 93),
byte rate 48000, block align 2, 16 bits, "data", size 10, then the payload
verbatim. -/
theorem createWavBlob_layout_witness :
    createWavBlob [0, 1, 2, 3, 4, 5, 6, 7, 8, 9] 24000 1 16 =
      [82, 73, 70, 70, 46, 0, 0, 0, 87, 65, 86, 69, 102, 109, 116, 32,
       16, 0, 0, 0, 1, 0, 1, 0, 192, 93, 0, 0, 128, 187, 0, 0, 2, 0, 16, 0,
       100, 97, 116, 97, 10, 0, 0, 0, 0, 1, 2, 3, 4, 5, 6, 7, 8, 9] ∧
    (createWavBlob [0, 1, 2, 3, 4, 5, 6, 7, 8, 9] 24000 1 16).length = 44 + 10 := by
  obtain ⟨h1, -, h3⟩ :=
    createWavBlob_layout [0, 1, 2, 3, 4, 5, 6, 7, 8, 9] 24000 1 16 (by decide)
  constructor
  · rw [h1]
    decide
  · rw [h3]
    decide
